import Mathlib

/-!
Verification of the lead-lag trading-signal engine
(`src/examples/lead_lag_strategy_live.py`, class `LeadLagStrategy`).

The Python engine is embedded shallowly:
* floating-point market data (prices, volumes, basis points, timestamps)
  is modelled by exact rationals `ℚ`;
* the Pearson correlation of log-returns (which uses `np.log`, `np.sqrt`)
  lives in `ℝ`, and every quantity derived from it (position notional,
  rounded order size, PnL) is therefore an `ℝ`;
* the mutable object state (`self.positions`, `self.pending_orders`,
  counters, price deques) becomes an explicit `EngState` record threaded
  through the operations;
* the fallible ZMQ send (`order_socket.send_string`, which may raise) is
  modelled by an explicit `Bool` dispatch-outcome parameter: `true` means
  the send returned normally, `false` means it raised.
-/

/-- One sample of the price stream, as appended by `_process_trades`:
`{"timestamp_ns": ..., "price": ..., "volume": ...}`. -/
structure PricePoint where
  timestamp_ns : ℕ
  price : ℚ
  volume : ℚ
  deriving DecidableEq, Repr, Inhabited

/-- An open position as stored in `self.positions[cl_id]` by `_execute_trade`.
The `size` is computed from the (real-valued) notional, hence `ℝ`. -/
structure Position where
  symbol : String
  side : String
  entry_price : ℚ
  size : ℝ
  entry_time : ℚ
  stop_loss : ℚ
  take_profit : ℚ

/-- The fields of an outbound order message that the claims are about.
`reason`/`pnl` are the tag fields present only on closing orders. -/
structure Order where
  cl_id : String
  symbol : String
  side : String
  order_type : String
  size : ℝ
  reduce_only : Bool
  reason : Option String
  pnl : Option ℝ

/-- Result of the per-position trigger evaluation inside `_manage_positions`
(the three sequential `if` blocks): whether the position should close, the
final value of the `reason` variable, and how much `trades_lost` /
`trades_won` were incremented while evaluating the triggers. -/
structure CheckResult where
  should_close : Bool
  reason : Option String
  lostInc : ℕ
  wonInc : ℕ
  deriving DecidableEq, Repr

/-- The mutable state of `LeadLagStrategy`: configuration (read-only after
`__init__`), the two price deques, the position/pending-order dicts and the
running statistics. -/
structure EngState where
  leader_symbol : String
  follower_symbol : String
  jump_threshold_bps : ℚ
  min_correlation : ℚ
  lookback_window : ℕ
  base_position_usd : ℚ
  max_position_usd : ℚ
  stop_loss_bps : ℚ
  take_profit_bps : ℚ
  max_open_positions : ℕ
  position_timeout_seconds : ℚ
  leader_prices : List PricePoint
  follower_prices : List PricePoint
  positions : List (String × Position)
  pending_orders : List (String × Order)
  trades_executed : ℕ
  trades_won : ℕ
  trades_lost : ℕ
  total_pnl : ℝ

/-- Python dict assignment `d[k] = v`: overwrite in place if the key is
present, else append at the end (insertion order). -/
def dictSet {α : Type} (k : String) (v : α) (d : List (String × α)) :
    List (String × α) :=
  if d.any (fun e => e.1 = k) then
    d.map (fun e => if e.1 = k then (k, v) else e)
  else
    d ++ [(k, v)]

/-- Python dict deletion `del d[k]` (for a present key). -/
def dictDel {α : Type} (k : String) (d : List (String × α)) :
    List (String × α) :=
  d.filter (fun e => e.1 ≠ k)

/-- `collections.deque(maxlen := cap).append x`: append and evict from the
front when the capacity is exceeded. -/
def dequePush (cap : ℕ) (h : List PricePoint) (x : PricePoint) :
    List PricePoint :=
  let h' := h ++ [x]
  h'.drop (h'.length - cap)

/-- Python negative indexing `l[-k]` on a non-empty enough list. -/
def getFromLast (l : List PricePoint) (k : ℕ) : PricePoint :=
  l.getD (l.length - k) default

/-- `self.follower_prices[-1]["price"]`. -/
def lastPrice (l : List PricePoint) : ℚ :=
  (getFromLast l 1).price

/-- `_detect_jump`: on fewer than two samples or a zero previous price,
returns `(False, 0.0)`; otherwise `(change_bps ≥ threshold, change_bps)`
with `change_bps = |price[-1]/price[-2] - 1| * 10000`. -/
def detect_jump (prices : List PricePoint) (threshold_bps : ℚ) :
    Bool × ℚ :=
  if prices.length < 2 then (false, 0)
  else
    let current_price := (getFromLast prices 1).price
    let prev_price := (getFromLast prices 2).price
    if prev_price = 0 then (false, 0)
    else
      let change_bps := |(current_price / prev_price - 1) * 10000|
      (decide (change_bps ≥ threshold_bps), change_bps)

/-- The `change_bps` quantity of `_detect_jump`, exposed for statements. -/
def change_bps (prices : List PricePoint) : ℚ :=
  |((getFromLast prices 1).price / (getFromLast prices 2).price - 1) * 10000|

/-- The three sequential trigger checks of `_manage_positions` for one
position: stop-loss (`if`/`elif` on side), then take-profit (`if`/`elif`),
then timeout; each later true branch overwrites `reason`.
`trades_lost` is incremented inside the stop-loss branches and
`trades_won` inside the take-profit branches, at evaluation time. -/
def check_position (pos : Position) (current_price now timeoutS : ℚ) :
    CheckResult :=
  let r0 : CheckResult := ⟨false, none, 0, 0⟩
  let r1 : CheckResult :=
    if pos.side = "buy" ∧ current_price ≤ pos.stop_loss then
      ⟨true, some "stop_loss", r0.lostInc + 1, r0.wonInc⟩
    else if pos.side = "sell" ∧ current_price ≥ pos.stop_loss then
      ⟨true, some "stop_loss", r0.lostInc + 1, r0.wonInc⟩
    else r0
  let r2 : CheckResult :=
    if pos.side = "buy" ∧ current_price ≥ pos.take_profit then
      ⟨true, some "take_profit", r1.lostInc, r1.wonInc + 1⟩
    else if pos.side = "sell" ∧ current_price ≤ pos.take_profit then
      ⟨true, some "take_profit", r1.lostInc, r1.wonInc + 1⟩
    else r1
  if now - pos.entry_time > timeoutS then
    ⟨true, some "timeout", r2.lostInc, r2.wonInc⟩
  else r2

/-- The stop-loss condition of `_manage_positions` (the `elif` branch for
sell is only reached when the buy branch fails). -/
def slTrigger (pos : Position) (current_price : ℚ) : Bool :=
  if pos.side = "buy" ∧ current_price ≤ pos.stop_loss then true
  else if pos.side = "sell" ∧ current_price ≥ pos.stop_loss then true
  else false

/-- The take-profit condition of `_manage_positions`. -/
def tpTrigger (pos : Position) (current_price : ℚ) : Bool :=
  if pos.side = "buy" ∧ current_price ≥ pos.take_profit then true
  else if pos.side = "sell" ∧ current_price ≤ pos.take_profit then true
  else false

/-- The timeout condition of `_manage_positions`:
`current_time - pos["entry_time"] > self.position_timeout_seconds`
(strict comparison in the source). -/
def timeoutTrigger (pos : Position) (now timeoutS : ℚ) : Bool :=
  decide (now - pos.entry_time > timeoutS)

/-! ## Correlation estimator (`_calculate_correlation`) -/

/-- Dot product of two real lists (`np.dot` on equal-length arrays;
`zip` truncates to the shorter length). -/
def dotL (xs ys : List ℝ) : ℝ :=
  ((xs.zip ys).map (fun p => p.1 * p.2)).sum

/-- Mean of a real list (`np.mean`). -/
noncomputable def meanL (xs : List ℝ) : ℝ := xs.sum / xs.length

/-- The list centred at its mean. -/
noncomputable def centered (xs : List ℝ) : List ℝ :=
  xs.map (fun x => x - meanL xs)

/-- `np.corrcoef(x, y)[0, 1]` for equal-length samples, with the NaN case
(zero variance in either series, hence zero denominator) mapped to `0`
exactly as the source's `np.isnan` guard does. -/
noncomputable def pearson (xs ys : List ℝ) : ℝ :=
  let num := dotL (centered xs) (centered ys)
  let den := Real.sqrt (dotL (centered xs) (centered xs)) *
    Real.sqrt (dotL (centered ys) (centered ys))
  if den = 0 then 0 else num / den

/-- The filtered consecutive log-returns over the last `window` samples of
a price series: the loop
`for i in range(len(l) - window, len(l) - 1)` keeping pairs with both
prices positive and appending `np.log(l[i+1].price / l[i].price)`. -/
noncomputable def logReturns (l : List ℚ) (window : ℕ) : List ℝ :=
  let tail := l.drop (l.length - window)
  ((tail.zip tail.tail).filter
      (fun p => decide (p.1 > 0) && decide (p.2 > 0))).map
    (fun p => Real.log ((p.2 : ℝ) / (p.1 : ℝ)))

/-- `_calculate_correlation`: early-out at fewer than 10 overlapping
samples, windowed filtered log-returns for each series, early-out when
either return series is shorter than 10, right-alignment to the common
length, then Pearson correlation with NaN mapped to `0.0`. -/
noncomputable def calculate_correlation
    (leader_prices follower_prices : List PricePoint)
    (lookback_window : ℕ) : ℝ :=
  let min_size := min leader_prices.length follower_prices.length
  if min_size < 10 then 0
  else
    let window := min min_size lookback_window
    let leader_returns := logReturns (leader_prices.map (·.price)) window
    let follower_returns := logReturns (follower_prices.map (·.price)) window
    if leader_returns.length < 10 ∨ follower_returns.length < 10 then 0
    else
      let min_len := min leader_returns.length follower_returns.length
      let lr := leader_returns.drop (leader_returns.length - min_len)
      let fr := follower_returns.drop (follower_returns.length - min_len)
      if lr.length = 0 then 0 else pearson lr fr

/-- The number of aligned return pairs that survive filtering and
right-alignment (the length of the series handed to `np.corrcoef`). -/
noncomputable def alignedReturnPairs
    (leader_prices follower_prices : List PricePoint)
    (lookback_window : ℕ) : ℕ :=
  let min_size := min leader_prices.length follower_prices.length
  let window := min min_size lookback_window
  min (logReturns (leader_prices.map (·.price)) window).length
    (logReturns (follower_prices.map (·.price)) window).length

lemma dotL_nil_left (ys : List ℝ) : dotL [] ys = 0 := rfl

lemma dotL_nil_right (xs : List ℝ) : dotL xs [] = 0 := by
  cases xs <;> rfl

lemma dotL_cons (a b : ℝ) (xs ys : List ℝ) :
    dotL (a :: xs) (b :: ys) = a * b + dotL xs ys := rfl

lemma dotL_self_nonneg (xs : List ℝ) : 0 ≤ dotL xs xs := by
  induction xs with
  | nil => simp [dotL_nil_left]
  | cons a xs ih =>
      rw [dotL_cons]
      nlinarith [sq_nonneg a]

/-- Cauchy–Schwarz for `dotL`. -/
lemma dotL_sq_le (xs ys : List ℝ) :
    (dotL xs ys) ^ 2 ≤ dotL xs xs * dotL ys ys := by
  induction xs generalizing ys with
  | nil => simp [dotL_nil_left]
  | cons a xs ih =>
      cases ys with
      | nil => simp [dotL_nil_right]
      | cons b ys =>
          have hA := dotL_self_nonneg xs
          have hB := dotL_self_nonneg ys
          have hS := ih ys
          rw [dotL_cons, dotL_cons, dotL_cons]
          rcases eq_or_lt_of_le hB with hB0 | hBpos
          · have hS0 : dotL xs ys = 0 := by
              have h1 : (dotL xs ys) ^ 2 ≤ 0 := by
                calc (dotL xs ys) ^ 2 ≤ dotL xs xs * dotL ys ys := hS
                _ = 0 := by rw [← hB0]; ring
              have h2 : (0:ℝ) ≤ (dotL xs ys) ^ 2 := sq_nonneg _
              have := le_antisymm h1 h2
              exact pow_eq_zero_iff (n := 2) (by norm_num) |>.mp this
            rw [hS0, ← hB0]
            nlinarith [sq_nonneg b, sq_nonneg a, mul_nonneg hA (sq_nonneg b)]
          · nlinarith [sq_nonneg (a * dotL ys ys - b * dotL xs ys),
              mul_nonneg (mul_nonneg hA hB) (sq_nonneg b),
              mul_pos hBpos hBpos, sq_nonneg (a * b)]

/-- The Pearson coefficient is always in `[-1, 1]`. -/
lemma pearson_bounds (xs ys : List ℝ) :
    -1 ≤ pearson xs ys ∧ pearson xs ys ≤ 1 := by
  unfold pearson
  set cx := centered xs
  set cy := centered ys
  set A := dotL cx cx with hAdef
  set B := dotL cy cy with hBdef
  have hA : 0 ≤ A := dotL_self_nonneg cx
  have hB : 0 ≤ B := dotL_self_nonneg cy
  by_cases hden : Real.sqrt A * Real.sqrt B = 0
  · simp [hden]
  · simp only [hden, if_false]
    have hdenpos : 0 < Real.sqrt A * Real.sqrt B := by
      rcases lt_or_eq_of_le
        (mul_nonneg (Real.sqrt_nonneg A) (Real.sqrt_nonneg B)) with h | h
      · exact h
      · exact absurd h.symm hden
    have hnum : |dotL cx cy| ≤ Real.sqrt A * Real.sqrt B := by
      have h1 : |dotL cx cy| = Real.sqrt ((dotL cx cy) ^ 2) := by
        rw [Real.sqrt_sq_eq_abs]
      rw [h1, ← Real.sqrt_mul hA]
      exact Real.sqrt_le_sqrt (dotL_sq_le cx cy)
    rw [abs_le] at hnum
    constructor
    · rw [neg_le, ← neg_div]
      exact div_le_one_of_le₀ (by linarith) (le_of_lt hdenpos)
    · exact div_le_one_of_le₀ hnum.2 (le_of_lt hdenpos)

/-! ## Signal evaluation and order dispatch
(`_evaluate_trade_signal`, `_execute_trade`) -/

/-- Python's `round` to the nearest integer, ties to even
(banker's rounding). -/
noncomputable def roundHalfEven (x : ℝ) : ℤ :=
  let f := ⌊x⌋
  let r := x - f
  if r < 1/2 then f
  else if 1/2 < r then f + 1
  else if Even f then f else f + 1

/-- Python's `round(x, 4)`. -/
noncomputable def roundTo4 (x : ℝ) : ℝ :=
  (roundHalfEven (x * 10000) : ℝ) / 10000

/-- `leader_direction = 1 if current > prev else -1` on the leader's last
two samples. -/
def leader_direction (st : EngState) : ℤ :=
  if (getFromLast st.leader_prices 1).price >
      (getFromLast st.leader_prices 2).price then 1 else -1

/-- The correlation the engine computes for its current buffers. -/
noncomputable def corrOf (st : EngState) : ℝ :=
  calculate_correlation st.leader_prices st.follower_prices
    st.lookback_window

/-- `trade_direction = leader_direction if correlation > 0 else
-leader_direction`. -/
noncomputable def trade_direction (st : EngState) : ℤ :=
  if corrOf st > 0 then leader_direction st else -(leader_direction st)

/-- `side = "buy" if trade_direction > 0 else "sell"`. -/
noncomputable def sideOf (st : EngState) : String :=
  if trade_direction st > 0 then "buy" else "sell"

/-- `signal_strength = abs(correlation) * (jump_bps / 100.0)`. -/
noncomputable def signal_strength (st : EngState) (jump_bps : ℚ) : ℝ :=
  |corrOf st| * ((jump_bps : ℝ) / 100)

/-- `position_usd = min(base_position_usd * min(signal_strength, 2.0),
max_position_usd)`. -/
noncomputable def position_usdOf (st : EngState) (jump_bps : ℚ) : ℝ :=
  min ((st.base_position_usd : ℝ) * min (signal_strength st jump_bps) 2)
    (st.max_position_usd : ℝ)

/-- `_execute_trade`: guards (no follower data, non-positive price,
non-positive rounded size), then optimistic position recording, then the
fallible send.  `dispatchOk = true` models `send_string` returning,
`false` models it raising, in which case the `except` branch deletes the
just-recorded position (`del self.positions[cl_id]`); `pending_orders`
and `trades_executed` are only touched after a successful send. -/
noncomputable def execute_trade (st : EngState) (side : String)
    (position_usd : ℝ) (clId : String) (now : ℚ) (dispatchOk : Bool) :
    EngState × Option Order :=
  if st.follower_prices.length = 0 then (st, none)
  else
    let current_price := lastPrice st.follower_prices
    if current_price ≤ 0 then (st, none)
    else
      let size := roundTo4 (position_usd * (98/100) / (current_price : ℝ))
      if size ≤ 0 then (st, none)
      else
        let stop_loss : ℚ :=
          if side = "buy" then
            current_price * (1 - st.stop_loss_bps / 10000)
          else current_price * (1 + st.stop_loss_bps / 10000)
        let take_profit : ℚ :=
          if side = "buy" then
            current_price * (1 + st.take_profit_bps / 10000)
          else current_price * (1 - st.take_profit_bps / 10000)
        let order : Order :=
          ⟨clId, st.follower_symbol, side, "market", size, false,
            none, none⟩
        let pos : Position :=
          ⟨st.follower_symbol, side, current_price, size, now,
            stop_loss, take_profit⟩
        let positions' := dictSet clId pos st.positions
        if dispatchOk then
          ({ st with
              positions := positions',
              pending_orders := dictSet clId order st.pending_orders,
              trades_executed := st.trades_executed + 1 }, some order)
        else
          ({ st with positions := dictDel clId positions' }, none)

/-- `_evaluate_trade_signal`: position-limit guard, correlation gate,
leader-history guard, then direction/sizing and `_execute_trade`. -/
noncomputable def evaluate_trade_signal (st : EngState) (jump_bps : ℚ)
    (clId : String) (now : ℚ) (dispatchOk : Bool) :
    EngState × Option Order :=
  if st.positions.length ≥ st.max_open_positions then (st, none)
  else if |corrOf st| < (st.min_correlation : ℝ) then (st, none)
  else if st.leader_prices.length < 2 then (st, none)
  else
    execute_trade st (sideOf st) (position_usdOf st jump_bps) clId now
      dispatchOk

/-! ## Position sweep (`_manage_positions`) -/

/-- What the sweep loop body does for one `(cl_id, pos)` entry: evaluate
the triggers, and when the position should close, compute the PnL from the
current price, emit the reduce-only close order on a successful send and
mark the entry for removal (`to_close.append`) only then. -/
structure StepOut where
  wonInc : ℕ
  lostInc : ℕ
  pnlDelta : ℝ
  order : Option Order
  remove : Bool

/-- The loop body of `_manage_positions` for one position.
`dispatchOk` models whether `send_string` on the close order returns. -/
noncomputable def position_step (clId : String) (pos : Position)
    (current_price now timeoutS : ℚ) (dispatchOk : Bool) : StepOut :=
  let r := check_position pos current_price now timeoutS
  if r.should_close then
    let pnl : ℝ :=
      if pos.side = "buy" then
        ((current_price : ℝ) - (pos.entry_price : ℝ)) * pos.size
      else ((pos.entry_price : ℝ) - (current_price : ℝ)) * pos.size
    let close_side := if pos.side = "buy" then "sell" else "buy"
    let close_order : Order :=
      ⟨clId ++ "_close", pos.symbol, close_side, "market", pos.size,
        true, r.reason, some pnl⟩
    if dispatchOk then ⟨r.wonInc, r.lostInc, pnl, some close_order, true⟩
    else ⟨r.wonInc, r.lostInc, pnl, none, false⟩
  else ⟨r.wonInc, r.lostInc, 0, none, false⟩

/-- `_manage_positions`: no-op without follower data; otherwise evaluate
every position against the latest follower price, accumulate the
win/loss/PnL statistics of every triggered position, and delete exactly
the entries whose close order was sent successfully (`to_close`).
The Python `for` loop accumulates these per-entry contributions
sequentially; since each entry's contribution is independent of the
others, the fold is written as map/sum/filter. -/
noncomputable def manage_positions (st : EngState) (now : ℚ)
    (dispatchOk : String → Bool) : EngState × List Order :=
  if st.follower_prices.length = 0 then (st, [])
  else
    let current_price := lastPrice st.follower_prices
    let steps := st.positions.map
      (fun e => (e.1, position_step e.1 e.2 current_price now
        st.position_timeout_seconds (dispatchOk e.1)))
    let to_close := (steps.filter (fun e => e.2.remove)).map (·.1)
    ({ st with
        trades_won := st.trades_won + (steps.map (·.2.wonInc)).sum,
        trades_lost := st.trades_lost + (steps.map (·.2.lostInc)).sum,
        total_pnl := st.total_pnl + (steps.map (·.2.pnlDelta)).sum,
        positions := st.positions.filter
          (fun e => decide (e.1 ∉ to_close)) },
      steps.filterMap (·.2.order))

/-! ## Trade ingestion (`_process_trades`) -/

/-- A decoded trade message (after `json.loads` succeeded and the numeric
fields parsed; a decode failure is swallowed by the outer `except` and
ingests nothing). -/
structure TradeMsg where
  symbol : String
  timestamp_ns : Option ℕ
  price : ℚ
  amount : ℚ

/-- Left-to-right non-overlapping substring replacement on character
lists, the semantics of Python's `str.replace` for a non-empty pattern.
The fuel argument (instantiated with the list length) makes the recursion
structural. -/
def replaceAux (pat repl : List Char) : ℕ → List Char → List Char
  | 0, s => s
  | fuel + 1, s =>
    if s.take pat.length = pat then
      repl ++ replaceAux pat repl fuel (s.drop pat.length)
    else
      match s with
      | [] => []
      | c :: rest => c :: replaceAux pat repl fuel rest

/-- `s.replace(pat, repl)` for a non-empty pattern (the only way the
source uses it). -/
def strReplace (s pat repl : String) : String :=
  if pat.data.isEmpty then s
  else ⟨replaceAux pat.data repl.data s.data.length s.data⟩

/-- `symbol.replace("-USDT-PERP", "").replace("USDT", "")`. -/
def normalizeSymbol (s : String) : String :=
  strReplace (strReplace s "-USDT-PERP" "") "USDT" ""

/-- `_process_trades` for one received message: build the price point
(defaulting the timestamp to the current clock), route it to the matching
deque, and on a leader update run the jump detector and possibly the
whole signal evaluation. -/
noncomputable def process_trade (st : EngState) (msg : TradeMsg)
    (nowNs : ℕ) (now : ℚ) (clId : String) (dispatchOk : Bool) :
    EngState :=
  let price_point : PricePoint :=
    ⟨msg.timestamp_ns.getD nowNs, msg.price, msg.amount⟩
  let normalized_symbol := normalizeSymbol msg.symbol
  if normalized_symbol = st.leader_symbol then
    let st1 := { st with
      leader_prices := dequePush (st.lookback_window + 50)
        st.leader_prices price_point }
    let jump := detect_jump st1.leader_prices st1.jump_threshold_bps
    if jump.1 then
      (evaluate_trade_signal st1 jump.2 clId now dispatchOk).1
    else st1
  else if normalized_symbol = st.follower_symbol then
    { st with
      follower_prices := dequePush (st.lookback_window + 50)
        st.follower_prices price_point }
  else st

/-- The PriceHistory invariant claimed by the spec: samples in
non-decreasing timestamp order, prices and volumes non-negative. -/
def buffOk (l : List PricePoint) : Prop :=
  List.Chain' (fun a b => a.timestamp_ns ≤ b.timestamp_ns) l ∧
    ∀ p ∈ l, 0 ≤ p.price ∧ 0 ≤ p.volume

instance buffOk_decidable (l : List PricePoint) : Decidable (buffOk l) :=
  inferInstanceAs (Decidable (_ ∧ _))

/-! ## Concrete fixtures used by the witness theorems -/

/-- An engine state with the configuration of `main()` and empty runtime
state. -/
noncomputable def testState : EngState where
  leader_symbol := "BTC"
  follower_symbol := "ETH"
  jump_threshold_bps := 25
  min_correlation := 11/20
  lookback_window := 100
  base_position_usd := 2
  max_position_usd := 4
  stop_loss_bps := 40
  take_profit_bps := 80
  max_open_positions := 2
  position_timeout_seconds := 120
  leader_prices := []
  follower_prices := []
  positions := []
  pending_orders := []
  trades_executed := 0
  trades_won := 0
  trades_lost := 0
  total_pnl := 0

/-- Eleven alternating prices `1, 2, 1, …, 1`; their ten consecutive
log-returns alternate between `log 2` and `-log 2`, giving a nonzero
variance and (for two identical series) a Pearson correlation of
exactly `1`. -/
def wPrices : List PricePoint :=
  [⟨0, 1, 1⟩, ⟨1, 2, 1⟩, ⟨2, 1, 1⟩, ⟨3, 2, 1⟩, ⟨4, 1, 1⟩, ⟨5, 2, 1⟩,
    ⟨6, 1, 1⟩, ⟨7, 2, 1⟩, ⟨8, 1, 1⟩, ⟨9, 2, 1⟩, ⟨10, 1, 1⟩]

/-- The ten log-returns of `wPrices`. -/
noncomputable def wReturns : List ℝ :=
  [Real.log 2, -Real.log 2, Real.log 2, -Real.log 2, Real.log 2,
    -Real.log 2, Real.log 2, -Real.log 2, Real.log 2, -Real.log 2]

/-- An engine state holding `wPrices` in both histories, with a
correlation gate of `1/2`, so that a 30bps jump emits a signal. -/
noncomputable def wState : EngState :=
  { testState with
      min_correlation := 1/2
      leader_prices := wPrices
      follower_prices := wPrices }

/-- The order that `wState` emits for a 30bps jump: leader ticked down
(`2 → 1`), correlation `+1`, so the engine sells `0.588` of the follower
(`min(2 * min(1 * 30/100, 2), 4) = 0.6` USD, times `0.98`, at price `1`,
rounded to 4 decimals). -/
noncomputable def wOrder : Order :=
  ⟨"c1", "ETH", "sell", "market", (588 : ℝ)/1000, false, none, none⟩

/-! # Theorems -/

/-! ## Claim C4 — jump detector -/

/-- Claim C4: for every price history the jump detector returns
`(false, 0.0)` when there are fewer than 2 samples or the previous price
is 0 (never dividing by zero); otherwise it returns
`(change_bps ≥ threshold_bps, change_bps)` with
`change_bps = |price[-1]/price[-2] - 1| * 10000`.  (The detector is a
pure function of the history in this embedding, so it mutates no
state.) -/
theorem C4_jump_detector (prices : List PricePoint) (t : ℚ) :
    ((prices.length < 2 ∨ (getFromLast prices 2).price = 0) →
      detect_jump prices t = (false, 0)) ∧
    (2 ≤ prices.length → (getFromLast prices 2).price ≠ 0 →
      detect_jump prices t =
        (decide (change_bps prices ≥ t), change_bps prices)) := by
  constructor
  · rintro (h | h) <;> simp [detect_jump, h]
  · intro hlen hprev
    simp only [detect_jump]
    rw [if_neg (by omega), if_neg hprev]
    rfl

/-- Witness for C4 at concrete inputs: the empty history and a
`100 → 101` tick (a 100bps move). -/
theorem C4_jump_detector_witness :
    detect_jump [] (25 : ℚ) = (false, 0) ∧
    detect_jump [⟨0, 100, 1⟩, ⟨1, 101, 1⟩] 25 =
      (decide (change_bps [⟨0, 100, 1⟩, ⟨1, 101, 1⟩] ≥ 25),
        change_bps [⟨0, 100, 1⟩, ⟨1, 101, 1⟩]) :=
  ⟨(C4_jump_detector [] 25).1 (Or.inl (by norm_num)),
    (C4_jump_detector [⟨0, 100, 1⟩, ⟨1, 101, 1⟩] 25).2 (by norm_num)
      (by norm_num [getFromLast])⟩

/-! ## Claim C5 — correlation estimator -/

/-- Claim C5: the correlation estimator always returns a value in
`[-1, 1]` (it is total, hence never raises); it returns exactly `0.0`
whenever the filtered, right-aligned return series have fewer than 10
aligned pairs; and the Pearson computation returns `0.0` whenever its
denominator vanishes (the `np.isnan` guard for zero variance). -/
theorem C5_correlation_bounds (L F : List PricePoint) (lb : ℕ) :
    (-1 ≤ calculate_correlation L F lb ∧
      calculate_correlation L F lb ≤ 1) ∧
    (alignedReturnPairs L F lb < 10 →
      calculate_correlation L F lb = 0) ∧
    (∀ xs ys : List ℝ,
      Real.sqrt (dotL (centered xs) (centered xs)) *
          Real.sqrt (dotL (centered ys) (centered ys)) = 0 →
      pearson xs ys = 0) := by
  refine ⟨?_, ?_, ?_⟩
  · simp only [calculate_correlation]
    split_ifs
    · norm_num
    · norm_num
    · norm_num
    · exact pearson_bounds _ _
  · intro h
    simp only [alignedReturnPairs] at h
    simp only [calculate_correlation]
    split_ifs with h1 h2 h3
    · rfl
    · rfl
    · rfl
    · omega
  · intro xs ys h
    simp [pearson, h]

/-- Witness for C5 at concrete inputs: empty histories yield exactly 0,
and a degenerate Pearson denominator yields exactly 0. -/
theorem C5_correlation_bounds_witness :
    calculate_correlation [] [] 100 = 0 ∧ pearson [] [] = 0 :=
  ⟨(C5_correlation_bounds [] [] 100).2.1
      (by simp [alignedReturnPairs, logReturns]),
    (C5_correlation_bounds [] [] 100).2.2 [] []
      (by simp [centered, dotL, meanL])⟩

/-! ## Claim C6 — max-open-positions guard -/

/-- Claim C6: whenever the number of open positions has reached
`max_open_positions`, signal evaluation returns immediately: the state is
unchanged and no order is emitted, regardless of jump magnitude and
correlation. -/
theorem C6_max_positions_guard (st : EngState) (jump_bps : ℚ)
    (clId : String) (now : ℚ) (dispatchOk : Bool)
    (h : st.positions.length ≥ st.max_open_positions) :
    evaluate_trade_signal st jump_bps clId now dispatchOk = (st, none) := by
  simp only [evaluate_trade_signal]
  rw [if_pos h]

/-- Witness for C6: a state whose limit is already reached (limit 0,
no open positions) emits nothing even for a huge jump. -/
theorem C6_max_positions_guard_witness :
    evaluate_trade_signal { testState with max_open_positions := 0 }
      1000 "c9" 0 true =
      ({ testState with max_open_positions := 0 }, none) :=
  C6_max_positions_guard _ 1000 "c9" 0 true (by simp [testState])

/-! ## Claim C1 — close-reason priority (corrected) -/

/-- Counterexample to claim C1 as stated: for a Buy position with
inverted thresholds (`stop_loss = 100`, `take_profit = 90`) at price 95
both the stop-loss and the take-profit conditions are geometrically true,
yet the recorded reason is `take_profit`, not `stop_loss`: each later
`if` block overwrites `reason`, so the LAST evaluated trigger wins, not
the first. -/
theorem C1_counterexample :
    slTrigger ⟨"ETH", "buy", 100, 1, 0, 100, 90⟩ 95 = true ∧
    tpTrigger ⟨"ETH", "buy", 100, 1, 0, 100, 90⟩ 95 = true ∧
    timeoutTrigger ⟨"ETH", "buy", 100, 1, 0, 100, 90⟩ 0 60 = false ∧
    (check_position ⟨"ETH", "buy", 100, 1, 0, 100, 90⟩ 95 0 60).reason ≠
      some "stop_loss" ∧
    (check_position ⟨"ETH", "buy", 100, 1, 0, 100, 90⟩ 95 0 60).reason =
      some "take_profit" := by
  refine ⟨?_, ?_, ?_, ?_, ?_⟩ <;>
    simp [slTrigger, tpTrigger, timeoutTrigger, check_position] <;>
    decide

/-- Claim C1 (amended): when at least one trigger fires at a sweep,
exactly one close reason is recorded, namely the last evaluated true
condition — timeout takes priority over both price triggers, and
take-profit takes precedence over stop-loss when both are geometrically
true at once. -/
theorem C1_last_trigger_reason (pos : Position)
    (current_price now timeoutS : ℚ)
    (h : slTrigger pos current_price = true ∨
      tpTrigger pos current_price = true ∨
      timeoutTrigger pos now timeoutS = true) :
    (check_position pos current_price now timeoutS).should_close = true ∧
    (check_position pos current_price now timeoutS).reason =
      some (if timeoutTrigger pos now timeoutS then "timeout"
        else if tpTrigger pos current_price then "take_profit"
        else "stop_loss") := by
  simp only [check_position, slTrigger, tpTrigger, timeoutTrigger] at *
  split_ifs at * <;> simp_all <;> linarith

/-- Witness for C1: a Buy position below its stop with no other trigger
records reason `stop_loss`. -/
theorem C1_last_trigger_reason_witness :
    (check_position ⟨"ETH", "buy", 100, 1, 0, 99, 110⟩ 98 0 60
      ).should_close = true ∧
    (check_position ⟨"ETH", "buy", 100, 1, 0, 99, 110⟩ 98 0 60).reason =
      some (if timeoutTrigger ⟨"ETH", "buy", 100, 1, 0, 99, 110⟩ 0 60
          then "timeout"
        else if tpTrigger ⟨"ETH", "buy", 100, 1, 0, 99, 110⟩ 98
          then "take_profit"
        else "stop_loss") :=
  C1_last_trigger_reason _ 98 0 60
    (Or.inl (by simp [slTrigger]; norm_num))

/-! ## Claim C3 — timeout close (corrected) -/

/-- Counterexample to claim C3 as stated: a position whose age equals
`position_timeout_seconds` exactly (age 60 ≥ timeout 60), with the price
strictly between stop and take-profit, is NOT closed: the source compares
with strict `>`, not `≥`. -/
theorem C3_counterexample :
    (60 : ℚ) - 0 ≥ 60 ∧
    check_position ⟨"ETH", "buy", 100, 1, 0, 99, 101⟩ 100 60 60 =
      ⟨false, none, 0, 0⟩ := by
  constructor
  · norm_num
  · simp [check_position]; norm_num

/-- Claim C3 (amended): a sweep with a current follower price closes any
position whose age is STRICTLY greater than `position_timeout_seconds`,
regardless of the current price, recording reason `timeout`, with the
PnL computed from the current price. -/
theorem C3_timeout_closes (clId : String) (pos : Position)
    (current_price now timeoutS : ℚ) (dispatchOk : Bool)
    (h : now - pos.entry_time > timeoutS) :
    (check_position pos current_price now timeoutS).should_close = true ∧
    (check_position pos current_price now timeoutS).reason =
      some "timeout" ∧
    (position_step clId pos current_price now timeoutS
        dispatchOk).pnlDelta =
      (if pos.side = "buy" then
        ((current_price : ℝ) - (pos.entry_price : ℝ)) * pos.size
      else ((pos.entry_price : ℝ) - (current_price : ℝ)) * pos.size) := by
  have hc1 :
      (check_position pos current_price now timeoutS).should_close =
        true := by
    simp only [check_position]
    split_ifs <;> rfl
  have hc2 :
      (check_position pos current_price now timeoutS).reason =
        some "timeout" := by
    simp only [check_position]
    split_ifs <;> rfl
  refine ⟨hc1, hc2, ?_⟩
  cases dispatchOk <;> simp [position_step, hc1]

/-- Witness for C3: a Buy position aged 61s against a 60s timeout, price
still between stop and take-profit, closes with PnL from the current
price. -/
theorem C3_timeout_closes_witness :
    (check_position ⟨"ETH", "buy", 100, 1, 0, 99, 101⟩ 100 61 60
      ).should_close = true ∧
    (check_position ⟨"ETH", "buy", 100, 1, 0, 99, 101⟩ 100 61 60
      ).reason = some "timeout" ∧
    (position_step "c3" ⟨"ETH", "buy", 100, 1, 0, 99, 101⟩ 100 61 60
        true).pnlDelta =
      (if ("buy" : String) = "buy" then
        ((100 : ℚ) : ℝ) - (((100 : ℚ)) : ℝ)
      else (((100 : ℚ)) : ℝ) - ((100 : ℚ) : ℝ)) * 1 := by
  have h := C3_timeout_closes "c3" ⟨"ETH", "buy", 100, 1, 0, 99, 101⟩
    100 61 60 true (by norm_num)
  refine ⟨h.1, h.2.1, ?_⟩
  rw [h.2.2]
  norm_num

/-! ## Claim C7 — stop-loss close and PnL sign -/

/-- Claim C7: a sweep closes a Buy position whose current price is at or
below its stop, with PnL `(exit - entry) * size` for Buy positions and
`(entry - exit) * size` for Sell positions, and the Buy PnL is strictly
negative whenever the stop is below the entry (the negativity needs no
assumption on the other triggers: PnL is always computed from the current
price). -/
theorem C7_stop_loss_close (clId : String) (pos : Position)
    (current_price now timeoutS : ℚ) (dispatchOk : Bool)
    (hbuy : pos.side = "buy") (hsl : current_price ≤ pos.stop_loss)
    (hsize : 0 < pos.size) :
    (check_position pos current_price now timeoutS).should_close =
      true ∧
    (position_step clId pos current_price now timeoutS
        dispatchOk).pnlDelta =
      ((current_price : ℝ) - (pos.entry_price : ℝ)) * pos.size ∧
    (pos.stop_loss < pos.entry_price →
      (position_step clId pos current_price now timeoutS
        dispatchOk).pnlDelta < 0) ∧
    (∀ spos : Position, spos.side = "sell" →
      (check_position spos current_price now timeoutS).should_close =
        true →
      (position_step clId spos current_price now timeoutS
          dispatchOk).pnlDelta =
        ((spos.entry_price : ℝ) - (current_price : ℝ)) * spos.size) := by
  have hc1 :
      (check_position pos current_price now timeoutS).should_close =
        true := by
    simp only [check_position]
    split_ifs <;>
      first
        | rfl
        | exact absurd
            (show pos.side = "buy" ∧ current_price ≤ pos.stop_loss from
              ⟨hbuy, hsl⟩)
            (by assumption)
  have hpnl :
      (position_step clId pos current_price now timeoutS
        dispatchOk).pnlDelta =
      ((current_price : ℝ) - (pos.entry_price : ℝ)) * pos.size := by
    cases dispatchOk <;> simp [position_step, hc1, hbuy]
  refine ⟨hc1, hpnl, ?_, ?_⟩
  · intro hstop
    rw [hpnl]
    have hlt : (current_price : ℝ) < (pos.entry_price : ℝ) := by
      exact_mod_cast lt_of_le_of_lt hsl hstop
    exact mul_neg_of_neg_of_pos (by linarith) hsize
  · intro spos hsell hclose
    have hnb : ¬ spos.side = "buy" := by rw [hsell]; decide
    cases dispatchOk <;> simp [position_step, hclose, hnb]

/-- Witness for C7: end-to-end scenario C — Buy at 2500 with stop 2490,
price drops to 2489: the sweep closes with PnL `(2489 - 2500) * 1 < 0`. -/
theorem C7_stop_loss_close_witness :
    (check_position ⟨"ETH", "buy", 2500, 1, 0, 2490, 2520⟩ 2489 0 120
      ).should_close = true ∧
    (position_step "c7" ⟨"ETH", "buy", 2500, 1, 0, 2490, 2520⟩ 2489 0
        120 true).pnlDelta =
      (((2489 : ℚ) : ℝ) - (((2500 : ℚ)) : ℝ)) * 1 ∧
    ((2490 : ℚ) < 2500 →
      (position_step "c7" ⟨"ETH", "buy", 2500, 1, 0, 2490, 2520⟩ 2489 0
        120 true).pnlDelta < 0) ∧
    (∀ spos : Position, spos.side = "sell" →
      (check_position spos 2489 0 120).should_close = true →
      (position_step "c7" spos 2489 0 120 true).pnlDelta =
        ((spos.entry_price : ℝ) - ((2489 : ℚ) : ℝ)) * spos.size) :=
  C7_stop_loss_close "c7" ⟨"ETH", "buy", 2500, 1, 0, 2490, 2520⟩ 2489 0
    120 true rfl (by norm_num) (by norm_num)

/-! ## Claim C9 — entry-dispatch failure rollback -/

/-- Deleting a freshly set key restores the original dict. -/
theorem dictDel_dictSet {α : Type} (k : String) (v : α)
    (d : List (String × α)) (h : ∀ e ∈ d, e.1 ≠ k) :
    dictDel k (dictSet k v d) = d := by
  have hany : d.any (fun e => e.1 = k) = false := by
    rw [List.any_eq_false]
    intro e he
    simpa using h e he
  unfold dictSet dictDel
  rw [hany]
  simp only [Bool.false_eq_true, if_false, List.filter_append]
  have hself : d.filter (fun e => decide (e.1 ≠ k)) = d :=
    List.filter_eq_self.mpr (fun e he => by simpa using h e he)
  rw [hself]
  simp

/-- Claim C9: if sending the entry order raises, the `except` branch
removes the position entry that was just recorded for that client id, so
the open-position set, the pending-order map and the `trades_executed`
counter all equal their values before the dispatch attempt, and no order
is emitted (the engine continues: the handler is total). -/
theorem C9_dispatch_failure_rollback (st : EngState) (side : String)
    (position_usd : ℝ) (clId : String) (now : ℚ)
    (hfresh : ∀ e ∈ st.positions, e.1 ≠ clId) :
    (execute_trade st side position_usd clId now false).1.positions =
      st.positions ∧
    (execute_trade st side position_usd clId now false
      ).1.pending_orders = st.pending_orders ∧
    (execute_trade st side position_usd clId now false
      ).1.trades_executed = st.trades_executed ∧
    (execute_trade st side position_usd clId now false).2 = none := by
  simp only [execute_trade]
  split_ifs <;>
    simp_all [dictDel_dictSet _ _ _ hfresh]

/-- Witness for C9: a failed send against a state with one follower
sample and no open positions leaves the state untouched. -/
theorem C9_dispatch_failure_rollback_witness :
    (execute_trade { testState with follower_prices := [⟨0, 1, 1⟩] }
      "buy" 1 "c9x" 0 false).1.positions =
      ({ testState with follower_prices := [⟨0, 1, 1⟩]} : EngState
        ).positions ∧
    (execute_trade { testState with follower_prices := [⟨0, 1, 1⟩] }
      "buy" 1 "c9x" 0 false).1.pending_orders =
      ({ testState with follower_prices := [⟨0, 1, 1⟩]} : EngState
        ).pending_orders ∧
    (execute_trade { testState with follower_prices := [⟨0, 1, 1⟩] }
      "buy" 1 "c9x" 0 false).1.trades_executed =
      ({ testState with follower_prices := [⟨0, 1, 1⟩]} : EngState
        ).trades_executed ∧
    (execute_trade { testState with follower_prices := [⟨0, 1, 1⟩] }
      "buy" 1 "c9x" 0 false).2 = none :=
  C9_dispatch_failure_rollback _ "buy" 1 "c9x" 0
    (by simp [testState])

/-! ## Claim C10 — close dispatch outcome vs statistics -/

/-- The per-position statistics contributions of the sweep do not depend
on whether the close order's send succeeded: they are computed before the
dispatch. -/
theorem position_step_stats_indep (clId : String) (pos : Position)
    (current_price now timeoutS : ℚ) (b b' : Bool) :
    (position_step clId pos current_price now timeoutS b).pnlDelta =
      (position_step clId pos current_price now timeoutS b').pnlDelta ∧
    (position_step clId pos current_price now timeoutS b).wonInc =
      (position_step clId pos current_price now timeoutS b').wonInc ∧
    (position_step clId pos current_price now timeoutS b).lostInc =
      (position_step clId pos current_price now timeoutS b').lostInc := by
  cases b <;> cases b' <;>
    first
      | exact ⟨rfl, rfl, rfl⟩
      | (simp only [position_step]; split_ifs <;> exact ⟨rfl, rfl, rfl⟩)

/-- A sweep entry is marked for removal exactly when its close triggered
and its dispatch succeeded. -/
theorem position_step_remove (clId : String) (pos : Position)
    (current_price now timeoutS : ℚ) (b : Bool) :
    (position_step clId pos current_price now timeoutS b).remove =
      ((check_position pos current_price now timeoutS).should_close
        && b) := by
  cases b <;> simp only [position_step] <;> split_ifs with h <;>
    simp_all

/-- In an association list with nodup keys, a key determines its value. -/
theorem keys_nodup_val_eq {α : Type} {l : List (String × α)}
    (hnd : (l.map Prod.fst).Nodup) {k : String} {v v' : α}
    (h1 : (k, v) ∈ l) (h2 : (k, v') ∈ l) : v = v' := by
  induction l with
  | nil => cases h1
  | cons e l ih =>
      simp only [List.map_cons, List.nodup_cons] at hnd
      rcases List.mem_cons.mp h1 with h1e | h1l <;>
        rcases List.mem_cons.mp h2 with h2e | h2l
      · rw [← h1e] at h2e; exact congrArg Prod.snd h2e.symm
      · exact absurd (List.mem_map_of_mem Prod.fst h2l)
          (by rw [← h1e] at hnd; simpa using hnd.1)
      · exact absurd (List.mem_map_of_mem Prod.fst h1l)
          (by rw [← h2e] at hnd; simpa using hnd.1)
      · exact ih hnd.2 h1l h2l

/-- Claim C10: at a sweep, a triggered position is removed from the open
set iff the dispatch of its reduce-only close order succeeded, while the
cumulative PnL and the win/loss counters receive every triggered
position's contribution regardless of the dispatch outcome (they are
updated at trigger time and never reverted), so a position whose close
dispatch failed remains open with its close-time PnL already
accumulated. -/
theorem C10_close_dispatch (st : EngState) (now : ℚ)
    (dispatchOk : String → Bool) (clId : String) (pos : Position)
    (hne : ¬ st.follower_prices.length = 0)
    (hmem : (clId, pos) ∈ st.positions)
    (hnd : (st.positions.map Prod.fst).Nodup)
    (htrig : (check_position pos (lastPrice st.follower_prices) now
      st.position_timeout_seconds).should_close = true) :
    ((clId, pos) ∈ (manage_positions st now dispatchOk).1.positions ↔
      dispatchOk clId = false) ∧
    (manage_positions st now dispatchOk).1.total_pnl =
      st.total_pnl + (st.positions.map (fun e =>
        (position_step e.1 e.2 (lastPrice st.follower_prices) now
          st.position_timeout_seconds (dispatchOk e.1)).pnlDelta)).sum ∧
    (manage_positions st now dispatchOk).1.trades_won =
      st.trades_won + (st.positions.map (fun e =>
        (position_step e.1 e.2 (lastPrice st.follower_prices) now
          st.position_timeout_seconds (dispatchOk e.1)).wonInc)).sum ∧
    (manage_positions st now dispatchOk).1.trades_lost =
      st.trades_lost + (st.positions.map (fun e =>
        (position_step e.1 e.2 (lastPrice st.follower_prices) now
          st.position_timeout_seconds (dispatchOk e.1)).lostInc)).sum ∧
    (∀ b b' : Bool,
      (position_step clId pos (lastPrice st.follower_prices) now
        st.position_timeout_seconds b).pnlDelta =
      (position_step clId pos (lastPrice st.follower_prices) now
        st.position_timeout_seconds b').pnlDelta) := by
  refine ⟨?_, ?_, ?_, ?_, fun b b' =>
    (position_step_stats_indep clId pos _ now _ b b').1⟩
  · simp only [manage_positions, if_neg hne, List.mem_filter,
      decide_eq_true_eq]
    constructor
    · rintro ⟨-, hnc⟩
      by_contra hok
      have hok' : dispatchOk clId = true := by
        cases h : dispatchOk clId
        · exact absurd h hok
        · rfl
      refine hnc ?_
      refine List.mem_map.mpr ⟨((clId, pos).1,
        position_step clId pos (lastPrice st.follower_prices) now
          st.position_timeout_seconds (dispatchOk clId)), ?_, rfl⟩
      refine List.mem_filter.mpr ⟨List.mem_map.mpr ⟨(clId, pos), hmem,
        rfl⟩, ?_⟩
      rw [position_step_remove, htrig, hok']
      rfl
    · intro hok
      refine ⟨hmem, fun hin => ?_⟩
      rcases List.mem_map.mp hin with ⟨x, hx, hx1⟩
      rcases List.mem_filter.mp hx with ⟨hxm, hxr⟩
      rcases List.mem_map.mp hxm with ⟨e, hem, hee⟩
      subst hee
      have hkey : e.1 = clId := hx1
      have hval : e.2 = pos := by
        refine keys_nodup_val_eq hnd ?_ hmem
        rw [← hkey]
        exact hem
      rw [hkey, hval, position_step_remove, htrig, hok] at hxr
      exact absurd hxr (by decide)
  · simp only [manage_positions, if_neg hne, List.map_map]
    rfl
  · simp only [manage_positions, if_neg hne, List.map_map]
    rfl
  · simp only [manage_positions, if_neg hne, List.map_map]
    rfl

/-- Witness for C10: one timed-out Buy position whose close dispatch
fails stays open, with the sweep totals already including its PnL. -/
theorem C10_close_dispatch_witness :
    (("p1", (⟨"ETH", "buy", 100, 1, 0, 99, 101⟩ : Position)) ∈
      (manage_positions
        { testState with
            follower_prices := [⟨0, 100, 1⟩]
            positions := [("p1", ⟨"ETH", "buy", 100, 1, 0, 99, 101⟩)] }
        200 (fun _ => false)).1.positions ↔
      (fun _ : String => false) "p1" = false) ∧
    (manage_positions
      { testState with
          follower_prices := [⟨0, 100, 1⟩]
          positions := [("p1", ⟨"ETH", "buy", 100, 1, 0, 99, 101⟩)] }
      200 (fun _ => false)).1.total_pnl =
      ({ testState with
          follower_prices := [⟨0, 100, 1⟩]
          positions := [("p1", ⟨"ETH", "buy", 100, 1, 0, 99, 101⟩)] }
        : EngState).total_pnl +
      (({ testState with
          follower_prices := [⟨0, 100, 1⟩]
          positions := [("p1", ⟨"ETH", "buy", 100, 1, 0, 99, 101⟩)] }
        : EngState).positions.map (fun e =>
        (position_step e.1 e.2
          (lastPrice [⟨0, 100, 1⟩]) 200 120 false).pnlDelta)).sum ∧
    True := by
  have h := C10_close_dispatch
    { testState with
        follower_prices := [⟨0, 100, 1⟩]
        positions := [("p1", ⟨"ETH", "buy", 100, 1, 0, 99, 101⟩)] }
    200 (fun _ => false) "p1" ⟨"ETH", "buy", 100, 1, 0, 99, 101⟩
    (by simp) (by simp) (by simp)
    (by simp [check_position, lastPrice, getFromLast, testState]
        norm_num)
  exact ⟨h.1, by simpa [testState] using h.2.1, trivial⟩

/-! ## Claim C8 — PriceHistory invariant (corrected) -/

/-- Counterexample to claim C8 as stated: `_process_trades` performs no
validation, so ingesting a follower trade carrying a negative price
stores a sample that violates the claimed invariant. -/
theorem C8_counterexample :
    (process_trade { testState with follower_prices := [] }
        ⟨"ETH", some 5, -1, 1⟩ 0 0 "c8" true).follower_prices =
      [⟨5, -1, 1⟩] ∧
    ¬ buffOk [⟨5, -1, 1⟩] := by
  constructor
  · decide
  · norm_num [buffOk]

/-- Pushing a well-formed, not-older sample onto a well-formed deque
preserves the invariant (append keeps the order, front eviction keeps a
suffix). -/
theorem buffOk_dequePush (cap : ℕ) (l : List PricePoint)
    (x : PricePoint) (h : buffOk l) (hp : 0 ≤ x.price)
    (hv : 0 ≤ x.volume)
    (hts : ∀ q ∈ l, q.timestamp_ns ≤ x.timestamp_ns) :
    buffOk (dequePush cap l x) := by
  obtain ⟨hch, hmem⟩ := h
  constructor
  · apply List.Chain'.drop
    refine List.chain'_append.mpr
      ⟨hch, List.chain'_singleton x, fun a ha b hb => ?_⟩
    have hb' : x = b := by simpa using hb
    obtain ⟨hne, ha'⟩ := List.mem_getLast?_eq_getLast ha
    subst hb'
    exact hts a (ha' ▸ List.getLast_mem hne)
  · intro p hp'
    rcases List.mem_append.mp (List.mem_of_mem_drop hp') with h1 | h1
    · exact hmem p h1
    · have : p = x := by simpa using h1
      subst this
      exact ⟨hp, hv⟩

/-- `_execute_trade` never touches the price histories. -/
theorem execute_trade_buffers (st : EngState) (side : String) (usd : ℝ)
    (clId : String) (now : ℚ) (dispatchOk : Bool) :
    (execute_trade st side usd clId now dispatchOk).1.leader_prices =
      st.leader_prices ∧
    (execute_trade st side usd clId now dispatchOk).1.follower_prices =
      st.follower_prices := by
  simp only [execute_trade]
  split_ifs <;> exact ⟨rfl, rfl⟩

/-- `_evaluate_trade_signal` never touches the price histories. -/
theorem evaluate_trade_signal_buffers (st : EngState) (jump_bps : ℚ)
    (clId : String) (now : ℚ) (dispatchOk : Bool) :
    (evaluate_trade_signal st jump_bps clId now dispatchOk
      ).1.leader_prices = st.leader_prices ∧
    (evaluate_trade_signal st jump_bps clId now dispatchOk
      ).1.follower_prices = st.follower_prices := by
  simp only [evaluate_trade_signal]
  split_ifs <;>
    first
      | exact ⟨rfl, rfl⟩
      | exact execute_trade_buffers st _ _ clId now dispatchOk

/-- Claim C8 (amended): the buffers PRESERVE the invariant — if both
histories satisfy it and the incoming message carries a non-negative
price and volume and a timestamp not older than every stored sample,
then both histories satisfy it after ingestion.  (The code does not
ESTABLISH the invariant: it performs no validation, see the
counterexample.) -/
theorem C8_buffer_invariant (st : EngState) (msg : TradeMsg)
    (nowNs : ℕ) (now : ℚ) (clId : String) (dispatchOk : Bool)
    (hL : buffOk st.leader_prices) (hF : buffOk st.follower_prices)
    (hp : 0 ≤ msg.price) (hv : 0 ≤ msg.amount)
    (htsL : ∀ q ∈ st.leader_prices,
      q.timestamp_ns ≤ msg.timestamp_ns.getD nowNs)
    (htsF : ∀ q ∈ st.follower_prices,
      q.timestamp_ns ≤ msg.timestamp_ns.getD nowNs) :
    buffOk ((process_trade st msg nowNs now clId dispatchOk
      ).leader_prices) ∧
    buffOk ((process_trade st msg nowNs now clId dispatchOk
      ).follower_prices) := by
  have hpushL := buffOk_dequePush (st.lookback_window + 50)
    st.leader_prices ⟨msg.timestamp_ns.getD nowNs, msg.price, msg.amount⟩
    hL hp hv htsL
  have hpushF := buffOk_dequePush (st.lookback_window + 50)
    st.follower_prices
    ⟨msg.timestamp_ns.getD nowNs, msg.price, msg.amount⟩ hF hp hv htsF
  simp only [process_trade]
  split_ifs with h1 h2 h3
  · constructor
    · rw [(evaluate_trade_signal_buffers _ _ _ _ _).1]
      exact hpushL
    · rw [(evaluate_trade_signal_buffers _ _ _ _ _).2]
      exact hF
  · exact ⟨hpushL, hF⟩
  · exact ⟨hL, hpushF⟩
  · exact ⟨hL, hF⟩

/-- Witness for C8: ingesting a well-formed follower trade into a state
that already holds one older follower sample keeps both buffers
well-formed. -/
theorem C8_buffer_invariant_witness :
    buffOk ((process_trade
      { testState with follower_prices := [⟨1, 100, 1⟩] }
      ⟨"ETH", some 5, 101, 2⟩ 0 0 "c8w" true).leader_prices) ∧
    buffOk ((process_trade
      { testState with follower_prices := [⟨1, 100, 1⟩] }
      ⟨"ETH", some 5, 101, 2⟩ 0 0 "c8w" true).follower_prices) :=
  C8_buffer_invariant _ ⟨"ETH", some 5, 101, 2⟩ 0 0 "c8w" true
    (by norm_num [buffOk, testState]) (by norm_num [buffOk, testState])
    (by norm_num) (by norm_num)
    (by norm_num [testState]) (by norm_num [testState])

/-! ## Claim C2 — trade direction follows the correlation sign -/

/-- Banker's rounding of a non-positive real is non-positive. -/
theorem roundHalfEven_nonpos (x : ℝ) (hx : x ≤ 0) :
    roundHalfEven x ≤ 0 := by
  have hf : ⌊x⌋ ≤ 0 := by
    calc ⌊x⌋ ≤ ⌊(0 : ℝ)⌋ := Int.floor_le_floor hx
    _ = 0 := Int.floor_zero
  have hfneg : ¬ (x - ⌊x⌋ < 1/2) → ⌊x⌋ + 1 ≤ 0 := by
    intro h1
    push_neg at h1
    have hfr : (⌊x⌋ : ℝ) ≤ -(1/2) := by linarith
    have : ⌊x⌋ < 0 := by
      by_contra hge
      push_neg at hge
      have : (0 : ℝ) ≤ (⌊x⌋ : ℝ) := by exact_mod_cast hge
      linarith
    omega
  simp only [roundHalfEven]
  split_ifs with h1 h2 h3
  · exact hf
  · exact hfneg h1
  · exact hf
  · exact hfneg h1

/-- `round(x, 4)` of a non-positive real is non-positive. -/
theorem roundTo4_nonpos (x : ℝ) (hx : x ≤ 0) : roundTo4 x ≤ 0 := by
  unfold roundTo4
  have h1 : x * 10000 ≤ 0 := by nlinarith
  have h2 : roundHalfEven (x * 10000) ≤ 0 := roundHalfEven_nonpos _ h1
  have h3 : (roundHalfEven (x * 10000) : ℝ) ≤ 0 := by exact_mod_cast h2
  exact div_nonpos_iff.mpr (Or.inr ⟨h3, by norm_num⟩)

/-- The leader direction is `+1` or `-1`. -/
theorem leader_direction_cases (st : EngState) :
    leader_direction st = 1 ∨ leader_direction st = -1 := by
  unfold leader_direction
  split_ifs <;> simp

/-- Claim C2: for every evaluated signal that passes the correlation
gate and emits an order, the emitted side equals the leader direction's
side when the correlation is positive, and equals the inverse of the
leader direction's side iff the correlation is negative (where
`leader_direction` is `+1` if the leader's last price strictly exceeds
its previous price and `-1` otherwise).  A zero correlation can pass the
gate only when `min_correlation ≤ 0`, but then the notional is zero, the
rounded size is zero, and the `size <= 0` guard suppresses the order —
so every emitted order has a nonzero correlation. -/
theorem C2_direction_follows_correlation (st : EngState) (jump_bps : ℚ)
    (clId : String) (now : ℚ) (dispatchOk : Bool) (c : ℝ) (o : Order)
    (hc : corrOf st = c)
    (hE : (evaluate_trade_signal st jump_bps clId now dispatchOk).2 =
      some o) :
    (0 < c →
      o.side = (if leader_direction st > 0 then "buy" else "sell")) ∧
    (o.side = (if -(leader_direction st) > 0 then "buy" else "sell") ↔
      c < 0) := by
  subst hc
  simp only [evaluate_trade_signal] at hE
  split_ifs at hE with h1 h2 h3
  · simp only [execute_trade] at hE
    split_ifs at hE with g1 g2 g3 g4 g5
    all_goals
      have hoside : o.side = sideOf st := by
        have hoe := Option.some.inj hE
        rw [← hoe]
      have hcne : corrOf st ≠ 0 := by
        intro h0
        apply g3
        apply roundTo4_nonpos
        have hm : min (0 : ℝ) 2 = 0 := min_eq_left (by norm_num)
        have husd : position_usdOf st jump_bps ≤ 0 := by
          have hss : signal_strength st jump_bps = 0 := by
            simp [signal_strength, h0]
          calc position_usdOf st jump_bps ≤
              (st.base_position_usd : ℝ) *
                min (signal_strength st jump_bps) 2 :=
              min_le_left _ _
          _ = 0 := by rw [hss, hm, mul_zero]
        have hcurR :
            (0 : ℝ) < ((lastPrice st.follower_prices : ℚ) : ℝ) := by
          push_neg at g2
          exact_mod_cast g2
        have hnum : position_usdOf st jump_bps * (98/100) ≤ 0 := by
          nlinarith
        exact div_nonpos_iff.mpr (Or.inr ⟨hnum, le_of_lt hcurR⟩)
      rw [hoside]
      rcases lt_trichotomy (corrOf st) 0 with hneg | h0 | hpos
      · have hside : sideOf st =
            (if -(leader_direction st) > 0 then "buy" else "sell") := by
          simp only [sideOf, trade_direction,
            if_neg (not_lt.mpr (le_of_lt hneg))]
        exact ⟨fun hp => absurd hp (by linarith),
          ⟨fun _ => hneg, fun _ => hside⟩⟩
      · exact absurd h0 hcne
      · have hside : sideOf st =
            (if leader_direction st > 0 then "buy" else "sell") := by
          simp only [sideOf, trade_direction, if_pos hpos]
        refine ⟨fun _ => hside, ⟨fun hEq => ?_, fun hlt =>
          absurd hlt (by linarith)⟩⟩
        exfalso
        rw [hside] at hEq
        rcases leader_direction_cases st with h | h <;>
          rw [h] at hEq <;> norm_num at hEq <;>
          exact absurd hEq (by decide)

/-- Pearson correlation of a series with itself is `1` whenever its
centred dot product (variance) is nonzero. -/
theorem pearson_self (xs : List ℝ)
    (h : dotL (centered xs) (centered xs) ≠ 0) : pearson xs xs = 1 := by
  have hA : 0 ≤ dotL (centered xs) (centered xs) := dotL_self_nonneg _
  simp only [pearson]
  rw [Real.mul_self_sqrt hA, if_neg h, div_self h]

/-- The log-returns of the alternating fixture prices. -/
theorem logReturns_w :
    logReturns (wPrices.map (fun p => p.price)) 11 = wReturns := by
  simp only [wPrices, wReturns, List.map_cons, List.map_nil, logReturns]
  norm_num [one_div, Real.log_inv]
  rw [one_div, Real.log_inv]

/-- The fixture returns sum to zero (five of each sign). -/
theorem wReturns_sum : wReturns.sum = 0 := by
  simp only [wReturns, List.sum_cons, List.sum_nil]
  ring

/-- Hence their mean is zero. -/
theorem meanL_w : meanL wReturns = 0 := by
  rw [meanL, wReturns_sum, zero_div]

/-- Hence centring them is the identity. -/
theorem centered_w : centered wReturns = wReturns := by
  simp [centered, meanL_w]

/-- The fixture returns have nonzero variance (`10 (log 2)² ≠ 0`). -/
theorem wReturns_dot_ne : dotL wReturns wReturns ≠ 0 := by
  have hl2 : 0 < Real.log 2 := Real.log_pos (by norm_num)
  have hval : dotL wReturns wReturns =
      10 * (Real.log 2 * Real.log 2) := by
    simp only [wReturns, dotL, List.zip_cons_cons, List.zip_nil_right,
      List.map_cons, List.map_nil, List.sum_cons, List.sum_nil]
    ring
  rw [hval]
  intro h
  nlinarith [hl2]

/-- On two identical alternating series the engine's correlation is
exactly `1`. -/
theorem calc_corr_w : calculate_correlation wPrices wPrices 100 = 1 := by
  have hlen : wPrices.length = 11 := by simp [wPrices]
  have hps : pearson wReturns wReturns = 1 := by
    apply pearson_self
    rw [centered_w]
    exact wReturns_dot_ne
  have hrlen : wReturns.length = 10 := by simp [wReturns]
  simp only [calculate_correlation, hlen]
  norm_num
  rw [logReturns_w]
  have hne : wReturns ≠ [] := by simp [wReturns]
  simp [hrlen, hps, hne]

/-- The fixture state's correlation is `1`. -/
theorem corrOf_w : corrOf wState = 1 := by
  simp only [corrOf, wState, testState]
  exact calc_corr_w

/-- Banker's rounding is the identity on integers. -/
theorem roundHalfEven_intCast (n : ℤ) : roundHalfEven (n : ℝ) = n := by
  simp only [roundHalfEven, Int.floor_intCast, sub_self]
  norm_num

/-- The fixture state's signal strength for a 30bps jump. -/
theorem strength_w : signal_strength wState 30 = 3/10 := by
  rw [signal_strength, corrOf_w]
  norm_num

/-- The fixture state's position notional for a 30bps jump:
`min(2 * min(0.3, 2), 4) = 0.6`. -/
theorem husd_w : position_usdOf wState 30 = 3/5 := by
  rw [position_usdOf, strength_w]
  rw [min_eq_left (by norm_num : (3/10 : ℝ) ≤ 2)]
  simp only [wState, testState]
  rw [min_eq_left (by push_cast; norm_num)]
  push_cast
  norm_num

/-- The fixture leader ticked down (`2 → 1`), so its direction is `-1`. -/
theorem leader_direction_w : leader_direction wState = -1 := by
  simp [leader_direction, wState, testState, wPrices, getFromLast]

/-- With correlation `+1` and the leader down, the engine sells. -/
theorem side_w : sideOf wState = "sell" := by
  rw [sideOf, trade_direction, corrOf_w, if_pos one_pos,
    leader_direction_w]
  norm_num

/-- The fixture follower's latest price is `1`. -/
theorem lastPrice_w : lastPrice wState.follower_prices = 1 := by
  simp [lastPrice, wState, testState, wPrices, getFromLast]

/-- The fixture order size: `round(0.6 * 0.98 / 1, 4) = 0.588`. -/
theorem size_w :
    roundTo4 ((3/5 : ℝ) * (98/100) / ((1 : ℚ) : ℝ)) = 588/1000 := by
  have harg : ((3/5 : ℝ) * (98/100) / ((1 : ℚ) : ℝ)) * 10000 =
      ((5880 : ℤ) : ℝ) := by
    push_cast
    norm_num
  rw [roundTo4, harg, roundHalfEven_intCast]
  norm_num

/-- The fixture state emits exactly `wOrder` on a 30bps jump with a
successful dispatch. -/
theorem eval_w :
    (evaluate_trade_signal wState 30 "c1" 0 true).2 = some wOrder := by
  simp only [evaluate_trade_signal, corrOf_w]
  rw [if_neg (by simp [wState, testState]),
    if_neg (by simp only [wState, testState]; push_cast; norm_num),
    if_neg (by simp [wState, testState, wPrices])]
  rw [side_w, husd_w]
  simp only [execute_trade, lastPrice_w]
  rw [if_neg (by simp [wState, testState, wPrices]),
    if_neg (by norm_num)]
  rw [size_w]
  rw [if_neg (by norm_num)]
  simp only [if_true]
  simp [wState, testState, wOrder]

/-- Witness for C2: the fixture state (identical alternating leader and
follower histories, correlation exactly `+1`, leader ticked down) emits
a sell order — the leader's direction, not inverted. -/
theorem C2_direction_follows_correlation_witness :
    (0 < (1 : ℝ) →
      wOrder.side =
        (if leader_direction wState > 0 then "buy" else "sell")) ∧
    (wOrder.side =
      (if -(leader_direction wState) > 0 then "buy" else "sell") ↔
      (1 : ℝ) < 0) :=
  C2_direction_follows_correlation wState 30 "c1" 0 true 1 wOrder
    corrOf_w eval_w
